import Mathlib

set_option linter.unusedVariables false

/-! Shallow embedding of the real-ip crate: trust-chain resolution of the
client address of a proxied HTTP request, together with the three header
extractors and their quoting and bracket normalization helpers.
Header text is modelled as a list of characters. -/

/-- IP address value: IPv4 as four octets, IPv6 as eight 16-bit groups,
mirroring the standard address representation used by the crate. -/
inductive IpAddr where
  | v4 (a b c d : Nat) : IpAddr
  | v6 (g1 g2 g3 g4 g5 g6 g7 g8 : Nat) : IpAddr
deriving DecidableEq

/-- Numeric big-endian value of an IPv4 address (32 bits). -/
def ipv4Val (a b c d : Nat) : Nat := ((a * 256 + b) * 256 + c) * 256 + d

/-- Numeric big-endian value of an IPv6 address (128 bits). -/
def ipv6Val (g1 g2 g3 g4 g5 g6 g7 g8 : Nat) : Nat :=
  ((((((g1 * 65536 + g2) * 65536 + g3) * 65536 + g4) * 65536 + g5) * 65536 + g6)
      * 65536 + g7) * 65536 + g8

/-- Modelled from the spec: a trusted Network Range — a classless prefix,
an address plus a prefix length. The range type itself is supplied by an
external collaborator (the ipnetwork crate), which validates the length
bound at construction time. -/
structure IpNetwork where
  addr : IpAddr
  prefixLen : Nat
deriving DecidableEq

/-- Modelled from the spec: the contains predicate of a Network Range.
The candidate address is contained when it is of the same family as the
range address and agrees with it on the first prefixLen bits. -/
def IpNetwork.contains (net : IpNetwork) (ip : IpAddr) : Bool :=
  match net.addr, ip with
  | .v4 a b c d, .v4 a2 b2 c2 d2 =>
      ipv4Val a b c d / 2 ^ (32 - net.prefixLen)
        == ipv4Val a2 b2 c2 d2 / 2 ^ (32 - net.prefixLen)
  | .v6 a b c d e f g h, .v6 a2 b2 c2 d2 e2 f2 g2 h2 =>
      ipv6Val a b c d e f g h / 2 ^ (128 - net.prefixLen)
        == ipv6Val a2 b2 c2 d2 e2 f2 g2 h2 / 2 ^ (128 - net.prefixLen)
  | _, _ => false

/-! Textual IP address parsing. Modelled from the spec: the extractors
"parse the remaining text as an IP address" with the standard library
parser of the host language, an external collaborator. The model follows
that parser: strict dotted-quad IPv4 (one to three decimal digits per
octet, no leading zeros, each at most 255), and grouped hexadecimal IPv6
with an optional double-colon gap and an optional embedded trailing
dotted-quad. -/

/-- Value of a digit character in the given radix (decimal digits, then
lower- and upper-case letters), if it is one. -/
def digitToNat (radix : Nat) (c : Char) : Option Nat :=
  if 48 ≤ c.toNat ∧ c.toNat ≤ 57 ∧ c.toNat - 48 < radix then some (c.toNat - 48)
  else if 97 ≤ c.toNat ∧ c.toNat ≤ 122 ∧ c.toNat - 87 < radix then some (c.toNat - 87)
  else if 65 ≤ c.toNat ∧ c.toNat ≤ 90 ∧ c.toNat - 55 < radix then some (c.toNat - 55)
  else none

/-- Splits off the longest leading run of digit characters of the radix. -/
def takeDigits (radix : Nat) : List Char → (List Nat × List Char)
  | [] => ([], [])
  | c :: rest =>
    match digitToNat radix c with
    | some d =>
      let p := takeDigits radix rest
      (d :: p.1, p.2)
    | none => ([], c :: rest)

/-- Numeric value of a digit sequence in the radix. -/
def digitsVal (radix : Nat) (ds : List Nat) : Nat :=
  ds.foldl (fun acc d => acc * radix + d) 0

/-- Reads an unsigned number: fails on no digits, on more than maxDigits
digits, on a forbidden leading zero, or when the value exceeds the bound
of the target integer width. Returns the value and the unconsumed rest. -/
def readNumber (radix maxDigits bound : Nat) (allowZeroPrefixed : Bool)
    (s : List Char) : Option (Nat × List Char) :=
  let p := takeDigits radix s
  if p.1.isEmpty then none
  else if maxDigits < p.1.length then none
  else if allowZeroPrefixed = false ∧ p.1.head? = some 0 ∧ 1 < p.1.length then none
  else if bound < digitsVal radix p.1 then none
  else some (digitsVal radix p.1, p.2)

/-- Consumes one expected character. -/
def expectChar (c : Char) : List Char → Option (List Char)
  | [] => none
  | d :: rest => if d = c then some rest else none

/-- Reads a dotted-quad IPv4 address, returning the four octets and the
unconsumed rest. -/
def readIpv4 (s : List Char) : Option ((Nat × Nat × Nat × Nat) × List Char) :=
  (readNumber 10 3 255 false s).bind fun (a, r1) =>
  (expectChar '.' r1).bind fun r2 =>
  (readNumber 10 3 255 false r2).bind fun (b, r3) =>
  (expectChar '.' r3).bind fun r4 =>
  (readNumber 10 3 255 false r4).bind fun (c, r5) =>
  (expectChar '.' r5).bind fun r6 =>
  (readNumber 10 3 255 false r6).map fun (d, r7) => ((a, b, c, d), r7)

/-- Reads one 16-bit hexadecimal IPv6 group, preceded by a colon separator
except for the first group of a run. -/
def readIpv6Group (i : Nat) (s : List Char) : Option (Nat × List Char) :=
  if i = 0 then readNumber 16 4 65535 true s
  else (expectChar ':' s).bind fun r => readNumber 16 4 65535 true r

/-- Reads up to the given number of colon-separated IPv6 groups starting at
group index i; a trailing embedded dotted-quad may fill the last two open
slots, signalled by the returned flag. Returns the groups read and the
unconsumed rest. -/
def readGroupsAux : Nat → Nat → List Char → (List Nat × List Char × Bool)
  | 0, _, s => ([], s, false)
  | rem + 1, i, s =>
    let tryV4 : Option (List Nat × List Char × Bool) :=
      if 1 ≤ rem then
        (if i = 0 then some s else expectChar ':' s).bind fun r =>
        (readIpv4 r).map fun (oct, rest) =>
          ([oct.1 * 256 + oct.2.1, oct.2.2.1 * 256 + oct.2.2.2], rest, true)
      else none
    match tryV4 with
    | some res => res
    | none =>
      match readIpv6Group i s with
      | some (g, rest) =>
        let p := readGroupsAux rem (i + 1) rest
        (g :: p.1, p.2.1, p.2.2)
      | none => ([], s, false)

/-- Reads an IPv6 address: a head run of groups, then — when fewer than
eight groups were read — a mandatory double colon standing for a run of
zero groups, then a tail run. An embedded dotted-quad is only allowed at
the very end. Returns the eight groups and the unconsumed rest. -/
def readIpv6 (s : List Char) : Option (List Nat × List Char) :=
  let hd := readGroupsAux 8 0 s
  if hd.1.length = 8 then some (hd.1, hd.2.1)
  else if hd.2.2 = true then none
  else
    (expectChar ':' hd.2.1).bind fun r2 =>
    (expectChar ':' r2).bind fun r3 =>
    let tl := readGroupsAux (8 - (hd.1.length + 1)) 0 r3
    some (hd.1 ++ List.replicate (8 - hd.1.length - tl.1.length) 0 ++ tl.1, tl.2.1)

/-- Parses a whole character sequence as an IP address: first as IPv4 and
otherwise as IPv6, requiring in either case that the input is consumed
completely. -/
def ipAddrFromStr (s : List Char) : Option IpAddr :=
  match readIpv4 s with
  | some (oct, rest) =>
    if rest.isEmpty then some (.v4 oct.1 oct.2.1 oct.2.2.1 oct.2.2.2) else none
  | none =>
    match readIpv6 s with
    | some (gs, rest) =>
      if rest.isEmpty then
        match gs with
        | [g1, g2, g3, g4, g5, g6, g7, g8] => some (.v6 g1 g2 g3 g4 g5 g6 g7 g8)
        | _ => none
      else none
    | none => none

/-! Quoting and bracket normalization, embedded from maybe_quoted and
maybe_bracketed (present identically in src/lib.rs and src/headers.rs). -/

/-- Escape-scanner state of maybe_quoted. -/
inductive EscapeState where
  | Normal : EscapeState
  | Escaped : EscapeState
deriving DecidableEq

/-- Scanning loop of maybe_quoted: in the Normal state an unescaped double
quote ends the scan, a backslash switches to the Escaped state, any other
character is copied; in the Escaped state the character is copied
literally and the state returns to Normal. -/
def quotedScan : EscapeState → List Char → List Char
  | _, [] => []
  | st, c :: rest =>
    match st with
    | .Normal =>
      if c = '"' then []
      else if c = '\\' then quotedScan .Escaped rest
      else c :: quotedScan .Normal rest
    | .Escaped => c :: quotedScan .Normal rest

/-- Strips one layer of surrounding double quotes, processing backslash
escapes, when the text starts with a double quote; otherwise the text is
returned unchanged. -/
def maybe_quoted (x : List Char) : List Char :=
  if x.head? = some '"' then quotedScan .Normal x.tail else x

/-- Strips one layer of surrounding square brackets when the text both
starts with an opening and ends with a closing bracket. -/
def maybe_bracketed (x : List Char) : List Char :=
  if x.head? = some '[' ∧ x.getLast? = some ']' then (x.drop 1).dropLast else x

/-- Whitespace trimming of one comma-separated segment (str trim of the
host standard library, an external collaborator). -/
def trimChars (s : List Char) : List Char :=
  ((s.dropWhile Char.isWhitespace).reverse.dropWhile Char.isWhitespace).reverse

/-- Normalization-and-parse applied to one segment: strip one quoting
layer, strip one bracket layer, parse as an IP address. -/
def segParse (x : List Char) : Option IpAddr :=
  ipAddrFromStr (maybe_bracketed (maybe_quoted x))

/-! The three header extractors. -/

/-- Splits a key=value parameter at its first equals sign. -/
def splitFirstEq : List Char → Option (List Char × List Char)
  | [] => none
  | c :: rest =>
    if c = '=' then some ([], rest)
    else (splitFirstEq rest).map fun p => (c :: p.1, p.2)

/-- Lower-cases an ASCII character. -/
def asciiLower (c : Char) : Char :=
  if 65 ≤ c.toNat ∧ c.toNat ≤ 90 then Char.ofNat (c.toNat + 32) else c

/-- Modelled from the spec: the node identifier of a forwarded-header for
parameter — optionally quoted; a bracketed IPv6 literal or a dotted-quad,
either one with an optional trailing port — yielding an address only when
the identifier is an IP literal. The structured grammar itself lives in an
external collaborator (the rfc7239 crate). -/
def parseNodeName (v : List Char) : Option IpAddr :=
  let u := if v.head? = some '"' ∧ v.getLast? = some '"' ∧ 2 ≤ v.length
    then (v.drop 1).dropLast else v
  match u with
  | '[' :: rest => ipAddrFromStr (rest.takeWhile (fun c => c ≠ ']'))
  | _ => ipAddrFromStr (u.takeWhile (fun c => c ≠ ':'))

/-- Modelled from the spec: one comma-separated forwarded-header hop entry
is a semicolon-separated parameter list; the entry contributes the IP of
its first for parameter whose node identifier is an IP literal, and
contributes nothing otherwise. -/
def forwardedForOfItem (item : List Char) : Option IpAddr :=
  (item.splitOn ';').findSome? fun kv =>
    match splitFirstEq kv with
    | some p =>
      if (trimChars p.1).map asciiLower = ['f', 'o', 'r']
      then parseNodeName (trimChars p.2) else none
    | none => none

/-- Modelled from the spec: the forwarded-header extractor parses the
comma-separated hop entries and yields, in order, the IP literal of each
entry's for parameter, skipping entries without one. -/
def extract_forwarded_header (v : List Char) : List IpAddr :=
  (v.splitOn ',').filterMap forwardedForOfItem

/-- Extractor for the x-forwarded-for header: split on commas (the comma
splitter is an external collaborator, modelled from the spec as a plain
comma split), trim each segment, strip quotes, strip brackets, parse, and
silently drop segments that fail to parse. -/
def extract_x_forwarded_for_header (v : List Char) : List IpAddr :=
  ((v.splitOn ',').map trimChars).filterMap fun x =>
    ipAddrFromStr (maybe_bracketed (maybe_quoted x))

/-- Extractor for the x-real-ip header: the same quote and bracket
normalization applied to the whole value, yielding zero or one address. -/
def extract_real_ip_header (v : List Char) : List IpAddr :=
  (ipAddrFromStr (maybe_bracketed (maybe_quoted v))).toList

/-! The request model and the resolver. -/

/-- An incoming request, reduced to its header collection: name-value
pairs with names already normalized to lower case, as the header map of
the http crate stores them; lookup returns the first value for a name. -/
structure Request where
  headers : List (List Char × List Char)

/-- Header lookup by (normalized) name. -/
def headerGet (req : Request) (name : List Char) : Option (List Char) :=
  req.headers.lookup name

/-- Extracts the declared forwarding chain of a request from exactly one
header family: forwarded when that header is present, else
x-forwarded-for when present, else x-real-ip when present, else none. -/
def get_forwarded_for (req : Request) : List IpAddr :=
  match headerGet req ("forwarded".data) with
  | some v => extract_forwarded_header v
  | none =>
    match headerGet req ("x-forwarded-for".data) with
    | some v => extract_x_forwarded_for_header v
    | none =>
      match headerGet req ("x-real-ip".data) with
      | some v => extract_real_ip_header v
      | none => []

/-- Membership of a hop in the configured trusted ranges: contained in at
least one of them. -/
def isTrusted (trusted : List IpNetwork) (hop : IpAddr) : Bool :=
  trusted.any fun net => net.contains hop

/-- Trust-chain resolver: append the transport peer to the extracted
hops, remember the first element of the chain, walk the chain in reverse
and return the first hop not contained in any trusted range; when every
hop is trusted, return the remembered first element. -/
def real_ip (req : Request) (remote : IpAddr) (trusted : List IpNetwork) :
    Option IpAddr :=
  let chain := get_forwarded_for req ++ [remote]
  match chain.reverse.find? (fun hop => !(isTrusted trusted hop)) with
  | some hop => some hop
  | none => chain.head?

/-! Claim-level descriptions of the quoting helper, following the
specification's words, compared below against the scanner embedded from
the source. -/

/-- Specification description of the quoted scan: return the characters
up to, and not including, the first unescaped double quote, a backslash
causing the following character to be copied literally; text after the
closing quote is discarded. -/
def specUnquote : List Char → List Char
  | [] => []
  | c :: rest =>
    if c = '"' then []
    else if c = '\\' then
      match rest with
      | [] => []
      | d :: rest2 => d :: specUnquote rest2
    else c :: specUnquote rest

/-- Resolution of backslash escapes over a whole text: each backslash
makes the following character literal; a lone trailing backslash is
dropped. -/
def resolveEscapes : List Char → List Char
  | [] => []
  | c :: rest =>
    if c = '\\' then
      match rest with
      | [] => []
      | d :: rest2 => d :: resolveEscapes rest2
    else c :: resolveEscapes rest

/-- Whether a text contains an unescaped double quote. -/
def hasUnescapedQuote : List Char → Bool
  | [] => false
  | c :: rest =>
    if c = '"' then true
    else if c = '\\' then
      match rest with
      | [] => false
      | _ :: rest2 => hasUnescapedQuote rest2
    else hasUnescapedQuote rest

/-- Escapes every double quote and backslash with a backslash. -/
def escapeChars : List Char → List Char
  | [] => []
  | c :: rest =>
    if c = '"' ∨ c = '\\' then '\\' :: c :: escapeChars rest
    else c :: escapeChars rest

/-- Double-quoted rendering of a segment. -/
def quoteRender (s : List Char) : List Char := '"' :: (escapeChars s ++ ['"'])

/-- Bracketed rendering of a segment. -/
def bracketRender (s : List Char) : List Char := '[' :: (s ++ [']'])


/-! Unfolding lemmas for the character-scanning functions. -/

theorem specUnquote_quote (rest : List Char) : specUnquote ('"' :: rest) = [] := by
  rw [specUnquote.eq_def]; rfl

theorem specUnquote_esc (d : Char) (rest2 : List Char) :
    specUnquote ('\\' :: d :: rest2) = d :: specUnquote rest2 := by
  rw [specUnquote.eq_def]; rfl

theorem specUnquote_esc_nil : specUnquote ['\\'] = [] := by
  rw [specUnquote.eq_def]; rfl

theorem specUnquote_other (c : Char) (rest : List Char) (h1 : ¬c = '"')
    (h2 : ¬c = '\\') : specUnquote (c :: rest) = c :: specUnquote rest := by
  rw [specUnquote.eq_def]
  simp [if_neg h1, if_neg h2]

theorem resolveEscapes_esc (d : Char) (rest2 : List Char) :
    resolveEscapes ('\\' :: d :: rest2) = d :: resolveEscapes rest2 := by
  rw [resolveEscapes.eq_def]; rfl

theorem resolveEscapes_esc_nil : resolveEscapes ['\\'] = [] := by
  rw [resolveEscapes.eq_def]; rfl

theorem resolveEscapes_other (c : Char) (rest : List Char) (h2 : ¬c = '\\') :
    resolveEscapes (c :: rest) = c :: resolveEscapes rest := by
  rw [resolveEscapes.eq_def]
  simp [if_neg h2]

theorem hasUnescapedQuote_quote (rest : List Char) :
    hasUnescapedQuote ('"' :: rest) = true := by
  rw [hasUnescapedQuote.eq_def]; rfl

theorem hasUnescapedQuote_esc (d : Char) (rest2 : List Char) :
    hasUnescapedQuote ('\\' :: d :: rest2) = hasUnescapedQuote rest2 := by
  rw [hasUnescapedQuote.eq_def]; rfl

theorem hasUnescapedQuote_other (c : Char) (rest : List Char) (h1 : ¬c = '"')
    (h2 : ¬c = '\\') :
    hasUnescapedQuote (c :: rest) = hasUnescapedQuote rest := by
  rw [hasUnescapedQuote.eq_def]
  simp [if_neg h1, if_neg h2]

theorem escapeChars_special (c : Char) (rest : List Char) (h : c = '"' ∨ c = '\\') :
    escapeChars (c :: rest) = '\\' :: c :: escapeChars rest := by
  rw [escapeChars.eq_def]
  simp [if_pos h]

theorem escapeChars_other (c : Char) (rest : List Char) (h : ¬(c = '"' ∨ c = '\\')) :
    escapeChars (c :: rest) = c :: escapeChars rest := by
  rw [escapeChars.eq_def]
  simp [if_neg h]

/-! Helper lemmas. -/

/-- The scanner embedded from the source agrees with the specification
description of the quoted scan. -/
theorem quotedScan_eq_specUnquote : ∀ l : List Char,
    quotedScan EscapeState.Normal l = specUnquote l
  | [] => rfl
  | c :: rest => by
    by_cases hq : c = '"'
    · subst hq
      rw [specUnquote_quote]; rfl
    · by_cases hb : c = '\\'
      · subst hb
        cases rest with
        | nil => rw [specUnquote_esc_nil]; rfl
        | cons d rest2 =>
          rw [specUnquote_esc]
          show d :: quotedScan EscapeState.Normal rest2 = d :: specUnquote rest2
          rw [quotedScan_eq_specUnquote rest2]
      · rw [specUnquote_other c rest hq hb]
        show (if c = '"' then [] else if c = '\\' then quotedScan EscapeState.Escaped rest
            else c :: quotedScan EscapeState.Normal rest) = c :: specUnquote rest
        rw [if_neg hq, if_neg hb, quotedScan_eq_specUnquote rest]

/-- On text with no unescaped double quote, the quoted scan resolves the
escapes of the whole remaining text. -/
theorem specUnquote_of_no_quote : ∀ l : List Char,
    hasUnescapedQuote l = false → specUnquote l = resolveEscapes l
  | [], _ => rfl
  | c :: rest, h => by
    by_cases hq : c = '"'
    · subst hq; rw [hasUnescapedQuote_quote] at h; exact absurd h (by simp)
    · by_cases hb : c = '\\'
      · subst hb
        cases rest with
        | nil => rw [specUnquote_esc_nil, resolveEscapes_esc_nil]
        | cons d rest2 =>
          rw [hasUnescapedQuote_esc] at h
          rw [specUnquote_esc, resolveEscapes_esc,
            specUnquote_of_no_quote rest2 h]
      · rw [hasUnescapedQuote_other c rest hq hb] at h
        rw [specUnquote_other c rest hq hb, resolveEscapes_other c rest hb,
          specUnquote_of_no_quote rest h]

/-- The quoted scan undoes the escaping of a rendered segment and stops at
the closing quote, discarding any tail. -/
theorem quotedScan_escapeChars (tail : List Char) : ∀ s : List Char,
    quotedScan EscapeState.Normal (escapeChars s ++ ('"' :: tail)) = s
  | [] => rfl
  | c :: rest => by
    by_cases hs : c = '"' ∨ c = '\\'
    · rw [escapeChars_special c rest hs]
      show c :: quotedScan EscapeState.Normal (escapeChars rest ++ ('"' :: tail))
          = c :: rest
      rw [quotedScan_escapeChars tail rest]
    · rcases not_or.mp hs with ⟨h1, h2⟩
      rw [escapeChars_other c rest hs]
      show (if c = '"' then [] else if c = '\\' then
            quotedScan EscapeState.Escaped (escapeChars rest ++ ('"' :: tail))
          else c :: quotedScan EscapeState.Normal (escapeChars rest ++ ('"' :: tail)))
          = c :: rest
      rw [if_neg h1, if_neg h2, quotedScan_escapeChars tail rest]

/-- Bracket stripping undoes the bracketed rendering. -/
theorem maybe_bracketed_bracketRender (s : List Char) :
    maybe_bracketed (bracketRender s) = s := by
  have h1 : bracketRender s = ('[' :: s) ++ [']'] := by simp [bracketRender]
  rw [h1, maybe_bracketed]
  rw [if_pos]
  · simp
  · exact ⟨by simp, by rw [List.getLast?_concat]⟩

/-- A reversed walk of a chain returns the last element satisfying the
predicate when everything after it fails the predicate. -/
theorem reverse_find_of_suffix (p : IpAddr → Bool) (pre post : List IpAddr)
    (hop : IpAddr) (hhop : p hop = true) (hpost : ∀ x ∈ post, p x = false) :
    (pre ++ hop :: post).reverse.find? p = some hop := by
  rw [List.reverse_append, List.reverse_cons, List.find?_append, List.find?_append]
  have h1 : post.reverse.find? p = none := by
    rw [List.find?_eq_none]
    intro x hx
    simp [hpost x (List.mem_reverse.mp hx)]
  rw [h1, List.find?_cons_of_pos _ hhop]
  rfl

/-- Membership in the trusted ranges depends only on which ranges are
present, not on their order. -/
theorem isTrusted_perm (t1 t2 : List IpNetwork) (hperm : t1.Perm t2)
    (hop : IpAddr) : isTrusted t1 hop = isTrusted t2 hop := by
  unfold isTrusted
  cases h2 : t2.any fun net => net.contains hop with
  | true =>
    rw [List.any_eq_true] at h2 ⊢
    obtain ⟨net, hmem, hc⟩ := h2
    exact ⟨net, hperm.mem_iff.mpr hmem, hc⟩
  | false =>
    rw [List.any_eq_false] at h2 ⊢
    intro net hmem
    exact h2 net (hperm.mem_iff.mp hmem)

/-- Claim C1: for every request, peer address and trusted-range list, the
resolver walks the chain hops plus peer in reverse, starting from the
peer, and returns the first hop encountered that is not contained in any
configured trusted network range: whenever the chain decomposes as
pre, hop, post with hop contained in no trusted range and every element
of post (the hops nearer the peer) contained in some trusted range, the
result is exactly that hop. -/
theorem real_ip_first_untrusted (req : Request) (remote : IpAddr)
    (trusted : List IpNetwork) (pre post : List IpAddr) (hop : IpAddr)
    (hchain : get_forwarded_for req ++ [remote] = pre ++ hop :: post)
    (hhop : ∀ net ∈ trusted, net.contains hop = false)
    (hpost : ∀ x ∈ post, ∃ net ∈ trusted, net.contains x = true) :
    real_ip req remote trusted = some hop := by
  unfold real_ip
  rw [hchain]
  have hfind : (pre ++ hop :: post).reverse.find?
      (fun h => !(isTrusted trusted h)) = some hop := by
    apply reverse_find_of_suffix
    · simp only [Bool.not_eq_true', isTrusted, List.any_eq_false]
      intro net hmem
      simp [hhop net hmem]
    · intro x hx
      obtain ⟨net, hmem, hc⟩ := hpost x hx
      simp only [Bool.not_eq_false', isTrusted, List.any_eq_true]
      exact ⟨net, hmem, hc⟩
  simp only [hfind]

/-- Claim C1 witness: the documented scenario — x-forwarded-for
192.0.2.1, 10.10.10.10, peer 10.0.0.1, trusted 10.0.0.1/32 and
10.10.10.0/24 — resolves to 192.0.2.1. -/
theorem real_ip_first_untrusted_witness :
    real_ip ⟨[("x-forwarded-for".data, "192.0.2.1, 10.10.10.10".data)]⟩
      (IpAddr.v4 10 0 0 1)
      [⟨IpAddr.v4 10 0 0 1, 32⟩, ⟨IpAddr.v4 10 10 10 0, 24⟩]
      = some (IpAddr.v4 192 0 2 1) :=
  real_ip_first_untrusted _ _ _ []
    [IpAddr.v4 10 10 10 10, IpAddr.v4 10 0 0 1] (IpAddr.v4 192 0 2 1)
    (by decide) (by decide) (by decide)

/-- Claim C2: if the transport peer is not contained in any trusted
network range — in particular whenever the trusted-range list is empty —
the resolver returns the peer, regardless of what proxy headers the
request carries. -/
theorem real_ip_untrusted_peer (req : Request) (remote : IpAddr)
    (trusted : List IpNetwork)
    (h : ∀ net ∈ trusted, net.contains remote = false) :
    real_ip req remote trusted = some remote := by
  unfold real_ip
  have hfind : (get_forwarded_for req ++ [remote]).reverse.find?
      (fun hop => !(isTrusted trusted hop)) = some remote := by
    apply reverse_find_of_suffix
    · simp only [Bool.not_eq_true', isTrusted, List.any_eq_false]
      intro net hmem
      simp [h net hmem]
    · intro x hx
      simp at hx
  simp only [hfind]

/-- Claim C2 witness: no trusted ranges, a forwarded-for header present;
the peer 198.51.100.5 is returned untouched. -/
theorem real_ip_untrusted_peer_witness :
    real_ip ⟨[("x-forwarded-for".data, "203.0.113.7".data)]⟩
      (IpAddr.v4 198 51 100 5) [] = some (IpAddr.v4 198 51 100 5) :=
  real_ip_untrusted_peer _ _ _ (by decide)

/-- Claim C3: when every element of the chain hops plus peer is contained
in some trusted range, the resolver returns the first element of the
chain — the earliest-claimed origin, and the peer itself when the hop
sequence is empty. -/
theorem real_ip_all_trusted (req : Request) (remote : IpAddr)
    (trusted : List IpNetwork)
    (h : ∀ hop ∈ get_forwarded_for req ++ [remote],
      ∃ net ∈ trusted, net.contains hop = true) :
    real_ip req remote trusted = (get_forwarded_for req ++ [remote]).head?
    ∧ (get_forwarded_for req = [] → real_ip req remote trusted = some remote) := by
  have hfind : (get_forwarded_for req ++ [remote]).reverse.find?
      (fun hop => !(isTrusted trusted hop)) = none := by
    rw [List.find?_eq_none]
    intro x hx
    obtain ⟨net, hmem, hc⟩ := h x (List.mem_reverse.mp hx)
    have ht : isTrusted trusted x = true := by
      simp only [isTrusted, List.any_eq_true]
      exact ⟨net, hmem, hc⟩
    simp [ht]
  constructor
  · unfold real_ip
    simp only [hfind]
  · intro hempty
    unfold real_ip
    simp only [hfind]
    rw [hempty]
    rfl

/-- Claim C3 witness: the single hop 10.10.10.10 and the peer 10.0.0.1
are both trusted; the resolver returns the earliest-claimed hop. -/
theorem real_ip_all_trusted_witness :
    real_ip ⟨[("x-forwarded-for".data, "10.10.10.10".data)]⟩ (IpAddr.v4 10 0 0 1)
      [⟨IpAddr.v4 10 0 0 1, 32⟩, ⟨IpAddr.v4 10 10 10 0, 24⟩]
      = some (IpAddr.v4 10 10 10 10) := by
  have h := real_ip_all_trusted ⟨[("x-forwarded-for".data, "10.10.10.10".data)]⟩
    (IpAddr.v4 10 0 0 1) [⟨IpAddr.v4 10 0 0 1, 32⟩, ⟨IpAddr.v4 10 10 10 0, 24⟩]
    (by decide)
  rw [h.1]
  decide

/-- Claim C5: the resolver always returns some address, and the returned
address is an element of the chain hops plus peer; it never fabricates an
address and never returns none. -/
theorem real_ip_mem_chain (req : Request) (remote : IpAddr)
    (trusted : List IpNetwork) :
    ∃ ip, real_ip req remote trusted = some ip
      ∧ ip ∈ get_forwarded_for req ++ [remote] := by
  unfold real_ip
  cases hf : (get_forwarded_for req ++ [remote]).reverse.find?
      (fun hop => !(isTrusted trusted hop)) with
  | some hop =>
    refine ⟨hop, by simp only [hf], ?_⟩
    exact List.mem_reverse.mp (List.mem_of_find?_eq_some hf)
  | none =>
    have hne : get_forwarded_for req ++ [remote] ≠ [] := by simp
    refine ⟨(get_forwarded_for req ++ [remote]).head hne, ?_, List.head_mem hne⟩
    simp only [hf]
    exact List.head?_eq_head hne

/-- Claim C9: permuting the configured trusted ranges does not change the
result of the resolver. -/
theorem real_ip_trusted_perm (req : Request) (remote : IpAddr)
    (t1 t2 : List IpNetwork) (hperm : t1.Perm t2) :
    real_ip req remote t1 = real_ip req remote t2 := by
  unfold real_ip
  have hfun : (fun hop => !(isTrusted t1 hop))
      = (fun hop => !(isTrusted t2 hop)) := by
    funext hop
    rw [isTrusted_perm t1 t2 hperm hop]
  rw [hfun]

/-- Claim C9 witness: swapping the two trusted ranges of the documented
scenario leaves the result unchanged. -/
theorem real_ip_trusted_perm_witness :
    real_ip ⟨[("x-forwarded-for".data, "192.0.2.1, 10.10.10.10".data)]⟩
      (IpAddr.v4 10 0 0 1)
      [⟨IpAddr.v4 10 0 0 1, 32⟩, ⟨IpAddr.v4 10 10 10 0, 24⟩]
    = real_ip ⟨[("x-forwarded-for".data, "192.0.2.1, 10.10.10.10".data)]⟩
      (IpAddr.v4 10 0 0 1)
      [⟨IpAddr.v4 10 10 10 0, 24⟩, ⟨IpAddr.v4 10 0 0 1, 32⟩] :=
  real_ip_trusted_perm _ _ _ _ (by decide)

/-- With no extracted hops the chain is only the peer, and the resolver
returns the peer whether or not it is trusted. -/
theorem real_ip_no_hops (req : Request) (remote : IpAddr)
    (trusted : List IpNetwork) (hg : get_forwarded_for req = []) :
    real_ip req remote trusted = some remote := by
  unfold real_ip
  rw [hg]
  show (match ([remote] : List IpAddr).find?
      (fun hop => !(isTrusted trusted hop)) with
    | some hop => some hop
    | none => ([remote] : List IpAddr).head?) = some remote
  by_cases ht : isTrusted trusted remote = true
  · rw [List.find?_cons_of_neg _ (by simp [ht])]
    rfl
  · have hf : isTrusted trusted remote = false := by simpa using ht
    rw [List.find?_cons_of_pos _ (by simp [hf])]

/-- Claim C4: header dispatch is exclusive and priority-ordered — the hop
sequence comes from the forwarded header when that key is present, else
from x-forwarded-for when present, else from x-real-ip when present, else
it is empty; and mere presence of the forwarded key, even when its value
yields no hops, suppresses any fallback, so the resolver then returns the
peer without consulting the other headers. -/
theorem get_forwarded_for_dispatch (req : Request) (vF vX vR : List Char)
    (remote : IpAddr) (trusted : List IpNetwork) :
    (headerGet req ("forwarded".data) = some vF →
      get_forwarded_for req = extract_forwarded_header vF)
    ∧ (headerGet req ("forwarded".data) = none →
        headerGet req ("x-forwarded-for".data) = some vX →
        get_forwarded_for req = extract_x_forwarded_for_header vX)
    ∧ (headerGet req ("forwarded".data) = none →
        headerGet req ("x-forwarded-for".data) = none →
        headerGet req ("x-real-ip".data) = some vR →
        get_forwarded_for req = extract_real_ip_header vR)
    ∧ (headerGet req ("forwarded".data) = none →
        headerGet req ("x-forwarded-for".data) = none →
        headerGet req ("x-real-ip".data) = none →
        get_forwarded_for req = [])
    ∧ (headerGet req ("forwarded".data) = some vF →
        extract_forwarded_header vF = [] →
        real_ip req remote trusted = some remote) := by
  refine ⟨?_, ?_, ?_, ?_, ?_⟩
  · intro h1
    unfold get_forwarded_for
    rw [h1]
  · intro h1 h2
    unfold get_forwarded_for
    rw [h1, h2]
  · intro h1 h2 h3
    unfold get_forwarded_for
    rw [h1, h2, h3]
  · intro h1 h2 h3
    unfold get_forwarded_for
    rw [h1, h2, h3]
  · intro h1 hemp
    apply real_ip_no_hops
    unfold get_forwarded_for
    rw [h1]
    exact hemp

/-- Claim C4 witness: a forwarded header with no for parameter together
with a present x-forwarded-for header — the forwarded family is selected,
yields no hops, and the resolver falls back to the peer instead of
consulting x-forwarded-for. -/
theorem get_forwarded_for_dispatch_witness :
    get_forwarded_for ⟨[("forwarded".data, "proto=https".data),
        ("x-forwarded-for".data, "203.0.113.9".data)]⟩
      = extract_forwarded_header ("proto=https".data)
    ∧ extract_forwarded_header ("proto=https".data) = []
    ∧ real_ip ⟨[("forwarded".data, "proto=https".data),
        ("x-forwarded-for".data, "203.0.113.9".data)]⟩
      (IpAddr.v4 10 0 0 1) [] = some (IpAddr.v4 10 0 0 1) := by
  have h := get_forwarded_for_dispatch
    ⟨[("forwarded".data, "proto=https".data),
      ("x-forwarded-for".data, "203.0.113.9".data)]⟩
    ("proto=https".data) [] [] (IpAddr.v4 10 0 0 1) []
  exact ⟨h.1 (by decide), by decide, h.2.2.2.2 (by decide) (by decide)⟩

/-- Claim C6: over any comma-joined segment list, the x-forwarded-for
extractor trims each segment, strips one quoting layer and one bracket
layer, parses the remainder as an IP address, silently omits every
segment that fails to parse, and still yields the remaining segments;
no error is ever surfaced. -/
theorem xff_extraction (segs : List (List Char)) (hne : segs ≠ [])
    (hnc : ∀ s ∈ segs, ',' ∉ s) :
    extract_x_forwarded_for_header (List.intercalate [','] segs)
      = segs.filterMap fun s =>
          ipAddrFromStr (maybe_bracketed (maybe_quoted (trimChars s))) := by
  unfold extract_x_forwarded_for_header
  rw [List.splitOn_intercalate segs ',' hnc hne, List.filterMap_map]
  rfl

/-- Claim C6 witness: of the segments 192.0.2.1 (with surrounding
whitespace), garbage, and a bracketed IPv6 literal, the unparseable one
is dropped and the others are yielded in order. -/
theorem xff_extraction_witness :
    extract_x_forwarded_for_header
        (List.intercalate [','] [" 192.0.2.1 ".data, "garbage".data, "[::1]".data])
      = [IpAddr.v4 192 0 2 1, IpAddr.v6 0 0 0 0 0 0 0 1] := by
  rw [xff_extraction [" 192.0.2.1 ".data, "garbage".data, "[::1]".data]
    (by decide) (by decide)]
  decide

/-- Claim C7: quoting and bracketing round-trip through extraction — for
any address and any plain rendering of it (a segment that itself starts
with no quote and carries no surrounding brackets) the double-quoted
rendering, with quotes and backslashes escaped, and the bracketed
rendering both extract to exactly the same address as the plain
rendering. -/
theorem quoted_bracketed_roundtrip (a : IpAddr) (s : List Char)
    (hq : s.head? ≠ some '"')
    (hb : ¬(s.head? = some '[' ∧ s.getLast? = some ']'))
    (hs : segParse s = some a) :
    segParse (quoteRender s) = some a ∧ segParse (bracketRender s) = some a := by
  have hmq : maybe_quoted s = s := by
    unfold maybe_quoted
    rw [if_neg hq]
  constructor
  · unfold segParse
    have h1 : maybe_quoted (quoteRender s) = s := by
      unfold maybe_quoted quoteRender
      show quotedScan EscapeState.Normal (escapeChars s ++ ('"' :: [])) = s
      exact quotedScan_escapeChars [] s
    rw [h1]
    unfold segParse at hs
    rw [hmq] at hs
    exact hs
  · unfold segParse
    have h2 : maybe_quoted (bracketRender s) = bracketRender s := by
      unfold maybe_quoted bracketRender
      rw [if_neg (by simp)]
    rw [h2, maybe_bracketed_bracketRender]
    unfold segParse at hs
    rw [hmq, maybe_bracketed, if_neg hb] at hs
    exact hs

/-- Claim C7 witness: the quoted rendering of 10.10.10.10 extracts to
10.10.10.10 and the bracketed IPv6 literal of ::1 extracts to ::1. -/
theorem quoted_bracketed_roundtrip_witness :
    segParse (quoteRender ("10.10.10.10".data)) = some (IpAddr.v4 10 10 10 10)
    ∧ segParse (bracketRender ("::1".data)) = some (IpAddr.v6 0 0 0 0 0 0 0 1) :=
  ⟨(quoted_bracketed_roundtrip (IpAddr.v4 10 10 10 10) ("10.10.10.10".data)
      (by decide) (by decide) (by decide)).1,
   (quoted_bracketed_roundtrip (IpAddr.v6 0 0 0 0 0 0 0 1) ("::1".data)
      (by decide) (by decide) (by decide)).2⟩

/-- Claim C8: the quote-normalization helper — on input beginning with a
double quote it returns the characters after that quote up to, and not
including, the first unescaped double quote, each backslash making the
following character literal and text after the closing quote being
discarded; input not beginning with a double quote is returned completely
unchanged. -/
theorem maybe_quoted_spec (rest x : List Char) (hx : x.head? ≠ some '"') :
    maybe_quoted ('"' :: rest) = specUnquote rest ∧ maybe_quoted x = x := by
  constructor
  · unfold maybe_quoted
    show quotedScan EscapeState.Normal rest = specUnquote rest
    exact quotedScan_eq_specUnquote rest
  · unfold maybe_quoted
    rw [if_neg hx]

/-- Claim C8 witness: a quoted value with an escaped quote inside and
trailing text after the closing quote, and an unquoted value returned
unchanged. -/
theorem maybe_quoted_spec_witness :
    maybe_quoted ('"' :: "10.0.0.2\" tail".data)
      = specUnquote ("10.0.0.2\" tail".data)
    ∧ maybe_quoted ("10.0.0.1".data) = "10.0.0.1".data :=
  maybe_quoted_spec _ _ (by decide)

/-- Claim C10: unterminated-quote edge case — when the text after the
leading double quote contains no unescaped closing quote, the helper
returns all remaining characters with backslash escapes resolved and a
lone trailing backslash dropped, rather than dropping the segment or
keeping the leading quote; through the x-real-ip extractor such a value
is parsed from that escape-resolved text. -/
theorem maybe_quoted_unterminated (rest : List Char)
    (h : hasUnescapedQuote rest = false) :
    maybe_quoted ('"' :: rest) = resolveEscapes rest
    ∧ extract_real_ip_header ('"' :: rest)
        = (ipAddrFromStr (maybe_bracketed (resolveEscapes rest))).toList := by
  have h1 : maybe_quoted ('"' :: rest) = resolveEscapes rest := by
    unfold maybe_quoted
    show quotedScan EscapeState.Normal rest = resolveEscapes rest
    rw [quotedScan_eq_specUnquote rest, specUnquote_of_no_quote rest h]
  refine ⟨h1, ?_⟩
  unfold extract_real_ip_header
  rw [h1]

/-- Claim C10 witness: the segment quote 10.0.0.2 backslash, with no
closing quote, still extracts to the address 10.0.0.2, the trailing
backslash being dropped. -/
theorem maybe_quoted_unterminated_witness :
    maybe_quoted ('"' :: "10.0.0.2\\".data) = "10.0.0.2".data
    ∧ extract_real_ip_header ('"' :: "10.0.0.2\\".data) = [IpAddr.v4 10 0 0 2] := by
  have h := maybe_quoted_unterminated ("10.0.0.2\\".data) (by decide)
  refine ⟨?_, ?_⟩
  · rw [h.1]
    decide
  · rw [h.2]
    decide
